import Mathlib

/-!
Verification development for `sms2mail.py`, a ModemManager-SMS-to-email
forwarder.  The Python source is shallowly embedded: D-Bus wire values
become an inductive type, each class method becomes a Lean function over
an explicit bus-environment record, and the orchestration loop becomes a
pure function from that environment to a trace of events.
-/

/-- A Python runtime value as seen at the D-Bus boundary.  The `d*`
constructors are the dbus-python wrapper types (`dbus.String`,
`dbus.ObjectPath`, `dbus.Int32`, `dbus.UInt32`, `dbus.Array`), the `p*`
constructors are plain Python values (`str`, `int`, `list`), `pyNone` is
Python `None`, and `pOther` stands for any other value, kept opaque up to
a tag. -/
inductive PyVal where
  | pyNone
  | dStr (s : String)
  | dPath (s : String)
  | dI32 (n : Int)
  | dU32 (n : Nat)
  | dArr (l : List PyVal)
  | pStr (s : String)
  | pInt (n : Int)
  | pList (l : List PyVal)
  | pOther (tag : String)

mutual
/-- `DBus.type_cast` from the source: `dbus.String`/`dbus.ObjectPath`
become `str`, `dbus.Int32`/`dbus.UInt32` become `int`, a `dbus.Array`
becomes a list of recursively cast elements, `None` stays `None`, and
every other value is returned unchanged. -/
def DBus.type_cast : PyVal → PyVal
  | .pyNone => .pyNone
  | .dStr s => .pStr s
  | .dPath s => .pStr s
  | .dI32 n => .pInt n
  | .dU32 n => .pInt (n : Int)
  | .dArr l => .pList (DBus.type_cast_list l)
  | .pStr s => .pStr s
  | .pInt n => .pInt n
  | .pList l => .pList l
  | .pOther t => .pOther t

/-- Elementwise cast of a `dbus.Array`s payload (the list comprehension
`[DBus.type_cast(e) for e in val]`). -/
def DBus.type_cast_list : List PyVal → List PyVal
  | [] => []
  | v :: t => DBus.type_cast v :: DBus.type_cast_list t
end

/-- Python `str.split(sep)` for a one-character separator: split at every
occurrence, keeping empty components.  The result is always nonempty. -/
def splitOnChar (sep : Char) : List Char → List (List Char)
  | [] => [[]]
  | c :: t =>
    match splitOnChar sep t with
    | [] => [[]]
    | h :: r => if c = sep then [] :: h :: r else (c :: h) :: r

/-- Python's substring test `needle in hay` on strings. -/
def containsSub (needle : List Char) : List Char → Bool
  | [] => needle.isEmpty
  | c :: t => needle.isPrefixOf (c :: t) || containsSub needle t

/-- Python `str.strip()`: drop whitespace from both ends. -/
def pyStrip (cs : List Char) : List Char :=
  ((cs.dropWhile Char.isWhitespace).reverse.dropWhile Char.isWhitespace).reverse

/-- Numeric value of a decimal digit character. -/
def digitVal (c : Char) : Nat := c.toNat - 48

/-- Parse a nonempty all-decimal-digit character list as a natural
number; anything else is rejected. -/
def parseDigits (ds : List Char) : Option Nat :=
  if ds ≠ [] ∧ ds.all Char.isDigit then
    some (ds.foldl (fun a c => a * 10 + digitVal c) 0)
  else none

/-- The sign-and-digits part of Python `int(s)`, after stripping. -/
def pyIntCore : List Char → Option Int
  | [] => none
  | c :: rest =>
    if c = '-' then (parseDigits rest).map (fun n => -(n : Int))
    else if c = '+' then (parseDigits rest).map (fun n => (n : Int))
    else (parseDigits (c :: rest)).map (fun n => (n : Int))

/-- Python `int(s)` on a string: surrounding whitespace is stripped, an
optional single sign is allowed, and the rest must be decimal digits
(digit-group underscores and non-ASCII digits are not modelled).
Failure stands for the `ValueError` the source catches. -/
def pyStrToInt (s : String) : Option Int :=
  pyIntCore (pyStrip s.data)

/-- Decimal digits of `n`, most significant first (the `%d` conversion
for a nonnegative value).  Fuelled so that the definition is structural;
`n + 1` units of fuel always suffice. -/
def natToDecAux : Nat → Nat → List Char
  | 0, _ => []
  | fuel + 1, n =>
    if n < 10 then [Char.ofNat (48 + n)]
    else natToDecAux fuel (n / 10) ++ [Char.ofNat (48 + n % 10)]

/-- Decimal representation of a natural number. -/
def natToDec (n : Nat) : List Char := natToDecAux (n + 1) n

/-- Python `"%d" % k` for an `int`: decimal digits with a leading minus
sign for negative values. -/
def intToDec (k : Int) : String :=
  if k < 0 then "-" ++ String.mk (natToDec k.natAbs) else String.mk (natToDec k.toNat)

/-- An argument that may be a Python `str`, `int`, or `None` - the three
shapes `ModemManagerObject.object_path` is called with. -/
inductive PyArg where
  | pstr (s : String)
  | pint (n : Int)
  | pynone

/-- `"/org/freedesktop/ModemManager1/%s/" % obj`. -/
def mmBasePath (obj : String) : String :=
  "/org/freedesktop/ModemManager1/" ++ obj ++ "/"

/-- `ModemManagerObject.object_path(obj, path)`: if `path` is a string
containing the base path, the trailing `/`-separated segment is taken as
the id, otherwise `path` itself is; the id is then converted with
`int(...)` and formatted back onto the base path.  A `ValueError` or
`TypeError` from `int(...)` is caught and logged, yielding `None`. -/
def ModemManagerObject.object_path (obj : String) (path : PyArg) : Option String :=
  let objbasepath := mmBasePath obj
  let objid : PyArg :=
    match path with
    | .pstr s =>
      if containsSub objbasepath.data s.data then
        .pstr (String.mk ((splitOnChar '/' s.data).getLastD []))
      else .pstr s
    | _ => path
  match objid with
  | .pstr s => (pyStrToInt s).map (fun k => objbasepath ++ intToDec k)
  | .pint k => some (objbasepath ++ intToDec k)
  | .pynone => none

/-- A Python `datetime`.  `utcoffsetUs` is the UTC offset of its
`tzinfo` in microseconds: `none` is an offset-naive value, `some o` an
offset-aware one (`tzinfo=timezone(timedelta(...))`). -/
structure PyDateTime where
  year : Nat
  month : Nat
  day : Nat
  hour : Nat
  minute : Nat
  second : Nat
  microsecond : Nat
  utcoffsetUs : Option Int
deriving DecidableEq, Repr

/-- `datetime.min`, i.e. `datetime(1, 1, 1)`. -/
def datetime_min : PyDateTime := ⟨1, 1, 1, 0, 0, 0, 0, none⟩

/-- The comparison tuple of a datetime. -/
def dtKeyList (d : PyDateTime) : List Nat :=
  [d.year, d.month, d.day, d.hour, d.minute, d.second, d.microsecond]

/-- Lexicographic `≤` on lists of naturals. -/
def lexLeNat : List Nat → List Nat → Bool
  | [], _ => true
  | _ :: _, [] => false
  | a :: as, b :: bs => decide (a < b) || (decide (a = b) && lexLeNat as bs)

/-- Python comparison of two offset-naive datetimes: field-lexicographic
on the wall-clock tuple.  Aware values compare by instant and a
naive/aware mixture raises `TypeError`; see `dtLePy` and `dtComparePy`
below. -/
def dtLe (a b : PyDateTime) : Bool := lexLeNat (dtKeyList a) (dtKeyList b)

/-- Gregorian leap-year rule, as `calendar.isleap`. -/
def isLeapYear (y : Nat) : Bool := y % 4 == 0 && (y % 100 != 0 || y % 400 == 0)

/-- Days in a month, as validated by the `datetime` constructor. -/
def daysInMonth (y m : Nat) : Nat :=
  if m == 2 then (if isLeapYear y then 29 else 28)
  else if m == 4 || m == 6 || m == 9 || m == 11 then 30
  else 31

/-- Days in the months before month `m` of year `y`
(`datetime._days_before_month`). -/
def daysBeforeMonth (y m : Nat) : Nat :=
  (List.range (m - 1)).foldl (fun a i => a + daysInMonth y (i + 1)) 0

/-- Proleptic-Gregorian day number of a date (`datetime.toordinal`). -/
def toordinal (y m d : Nat) : Nat :=
  365 * (y - 1) + (y - 1) / 4 - (y - 1) / 100 + (y - 1) / 400 + daysBeforeMonth y m + d

/-- Microseconds of the wall-clock fields since the proleptic-Gregorian
epoch. -/
def dtWallUs (a : PyDateTime) : Int :=
  ((((toordinal a.year a.month a.day) * 24 + a.hour) * 60 + a.minute) * 60 + a.second)
      * 1000000 + a.microsecond

/-- The instant an aware datetime denotes: wall clock minus UTC offset
(for a naive value this is just the wall clock). -/
def dtInstantUs (a : PyDateTime) : Int := dtWallUs a - (a.utcoffsetUs.getD 0)

/-- Python `<=` on two datetime keys as `list.sort` evaluates it:
aware/aware compares by instant, naive/naive by the wall-clock tuple.
A naive/aware mixture raises `TypeError` in Python (see `dtComparePy`);
this total function falls back to the wall-clock order there, and every
theorem about sort order assumes a homogeneous key set. -/
def dtLePy (a b : PyDateTime) : Bool :=
  match a.utcoffsetUs, b.utcoffsetUs with
  | some oa, some ob => decide (dtWallUs a - oa ≤ dtWallUs b - ob)
  | _, _ => dtLe a b

/-- Python datetime comparison including its failure mode: comparing an
offset-naive with an offset-aware value raises `TypeError`. -/
def dtComparePy (a b : PyDateTime) : Except String Bool :=
  match a.utcoffsetUs, b.utcoffsetUs with
  | none, some _ => .error "TypeError: cannot compare offset-naive and offset-aware datetimes"
  | some _, none => .error "TypeError: cannot compare offset-naive and offset-aware datetimes"
  | _, _ => .ok (dtLePy a b)

/-- The range checks performed by the `datetime(...)` constructor; a
failed check is the `ValueError` that `fromisoformat` re-raises.  The
offset, already validated by the `timezone` constructor, is carried
through. -/
def mkDatetimeChecked (y mo d h mi s us : Nat) (off : Option Int) : Option PyDateTime :=
  if 1 ≤ y ∧ y ≤ 9999 ∧ 1 ≤ mo ∧ mo ≤ 12 ∧ 1 ≤ d ∧ d ≤ daysInMonth y mo
     ∧ h ≤ 23 ∧ mi ≤ 59 ∧ s ≤ 59 ∧ us ≤ 999999 then
    some ⟨y, mo, d, h, mi, s, us, off⟩
  else none

/-- Two decimal digit characters as a number. -/
def parse2 (a b : Char) : Option Nat :=
  if a.isDigit ∧ b.isDigit then some (digitVal a * 10 + digitVal b) else none

/-- Four decimal digit characters as a number. -/
def parse4 (a b c d : Char) : Option Nat :=
  if a.isDigit ∧ b.isDigit ∧ c.isDigit ∧ d.isDigit then
    some (digitVal a * 1000 + digitVal b * 100 + digitVal c * 10 + digitVal d)
  else none

/-- The `HH[:MM[:SS[.fff[fff]]]]` grammar of the source Python's
`_parse_hh_mm_ss_ff` helper, the fraction being exactly three or six
digits; `fromisoformat` applies it to both the time-of-day part and
(length-restricted) the UTC-offset part, see `parseIsoTimeTz`. -/
def parseIsoTime : List Char → Option (Nat × Nat × Nat × Nat)
  | [h1, h2] => (parse2 h1 h2).map (fun h => (h, 0, 0, 0))
  | [h1, h2, ':', m1, m2] =>
    match parse2 h1 h2, parse2 m1 m2 with
    | some h, some mi => some (h, mi, 0, 0)
    | _, _ => none
  | [h1, h2, ':', m1, m2, ':', s1, s2] =>
    match parse2 h1 h2, parse2 m1 m2, parse2 s1 s2 with
    | some h, some mi, some s => some (h, mi, s, 0)
    | _, _, _ => none
  | [h1, h2, ':', m1, m2, ':', s1, s2, '.', f1, f2, f3] =>
    match parse2 h1 h2, parse2 m1 m2, parse2 s1 s2, parse2 f1 f2, f3.isDigit with
    | some h, some mi, some s, some f12, true =>
      some (h, mi, s, (f12 * 10 + digitVal f3) * 1000)
    | _, _, _, _, _ => none
  | [h1, h2, ':', m1, m2, ':', s1, s2, '.', f1, f2, f3, f4, f5, f6] =>
    match parse2 h1 h2, parse2 m1 m2, parse2 s1 s2, parse2 f1 f2, parse2 f3 f4, parse2 f5 f6 with
    | some h, some mi, some s, some a, some b, some c =>
      some (h, mi, s, a * 10000 + b * 100 + c)
    | _, _, _, _, _, _ => none
  | _ => none

/-- Split a character list at the first occurrence of `c`
(`str.find`-based slicing in the source's time parser): the part before
and the part after the separator, or `none` when `c` does not occur. -/
def splitAtFirst (c : Char) : List Char → Option (List Char × List Char)
  | [] => none
  | d :: t =>
    if d = c then some ([], t)
    else (splitAtFirst c t).map (fun p => (d :: p.1, p.2))

/-- The UTC-offset part of `fromisoformat`: the substring after the
sign must have length 5, 8 or 15 (`HH:MM`, `HH:MM:SS`,
`HH:MM:SS.ffffff`) and is parsed with the same `_parse_hh_mm_ss_ff`
helper; the `timezone` constructor then requires the magnitude to be
strictly less than 24 hours.  Result: the signed offset in
microseconds. -/
def parseTzOffset (neg : Bool) (tz : List Char) : Option Int :=
  if tz.length = 5 ∨ tz.length = 8 ∨ tz.length = 15 then
    (parseIsoTime tz).bind (fun p =>
      let totalUs : Int :=
        ((p.1 * 3600 + p.2.1 * 60 + p.2.2.1) * 1000000 + p.2.2.2 : Nat)
      if totalUs < 24 * 3600 * 1000000 then some (if neg then -totalUs else totalUs)
      else none)
  else none

/-- The time part of `fromisoformat` including an optional UTC offset:
the source slices the time string at the first `-` (else at the first
`+`), parses both halves, and attaches `timezone(sign * offset)` -
yielding an aware datetime. -/
def parseIsoTimeTz (t : List Char) : Option (Nat × Nat × Nat × Nat × Option Int) :=
  match splitAtFirst '-' t with
  | some (ts, tz) =>
    (parseIsoTime ts).bind (fun tm =>
      (parseTzOffset true tz).map (fun o => (tm.1, tm.2.1, tm.2.2.1, tm.2.2.2, some o)))
  | none =>
    match splitAtFirst '+' t with
    | some (ts, tz) =>
      (parseIsoTime ts).bind (fun tm =>
        (parseTzOffset false tz).map (fun o => (tm.1, tm.2.1, tm.2.2.1, tm.2.2.2, some o)))
    | none => (parseIsoTime t).map (fun tm => (tm.1, tm.2.1, tm.2.2.1, tm.2.2.2, none))

/-- The date-and-optional-time grammar of `datetime.fromisoformat`:
`YYYY-MM-DD` optionally followed by one separator character, a time
part, and an optional UTC offset. -/
def parseIsoParts : List Char → Option (Nat × Nat × Nat × (Nat × Nat × Nat × Nat × Option Int))
  | y1 :: y2 :: y3 :: y4 :: '-' :: m1 :: m2 :: '-' :: d1 :: d2 :: rest =>
    match parse4 y1 y2 y3 y4, parse2 m1 m2, parse2 d1 d2 with
    | some y, some mo, some d =>
      match rest with
      | [] => some (y, mo, d, (0, 0, 0, 0, none))
      | _ :: t => (parseIsoTimeTz t).map (fun tm => (y, mo, d, tm))
    | _, _, _ => none
  | _ => none

/-- `datetime.fromisoformat(s)`: parse the ISO string (an offset suffix
yields an offset-aware value) and build a validated datetime; any
failure is the `ValueError` the source catches in
`MMModemSms.get_datetime`. -/
def datetime_fromisoformat (s : String) : Option PyDateTime :=
  (parseIsoParts s.data).bind
    (fun p => mkDatetimeChecked p.1 p.2.1 p.2.2.1 p.2.2.2.1 p.2.2.2.2.1 p.2.2.2.2.2.1
      p.2.2.2.2.2.2.1 p.2.2.2.2.2.2.2)

/-- The point-in-time remote state one poll cycle observes, together
with the outcome of the external calls it performs.  Property maps hold
the raw wire values (`GetAll` snapshots); `none` is an absent name or a
failed fetch, both of which `get_property` turns into Python `None`. -/
structure BusEnv where
  /-- Keys of the manager-level `GetManagedObjects()` dictionary. -/
  managedObjectKeys : List PyVal
  /-- Wire properties of the `Modem` interface, per modem object path. -/
  modemProp : String → String → Option PyVal
  /-- The cast `Messages` property of a modem's `Messaging` interface: a
  list of SMS object paths (an absent or non-array value, over which the
  source could not iterate, is modelled as the empty list). -/
  messagesOf : String → List String
  /-- Wire properties of the `Sms` interface, per SMS object path. -/
  smsProp : String → String → Option PyVal
  /-- Outcome of the SMTP session for a given message's object path:
  `ok` if the mail goes out, `error` for whatever exception the session
  raises. -/
  smtpResult : Option String → Except String Unit
  /-- Whether the remote `Delete` call for a given path succeeds. -/
  deleteOk : Option String → Bool

/-- The `MM_SMS_STATE_RECEIVED` lifecycle constant. -/
def MMSmsState.MM_SMS_STATE_RECEIVED : Int := 3

/-- A constructed `MMModem`: its identity is the object path the
constructor bound (or `None` if `object_path` rejected the id, in which
case every property read is absent). -/
structure MMModem where
  obj_path : Option String
deriving DecidableEq

/-- The `MMModem(modem)` constructor: re-encode the candidate as a Modem
object path and bind to it. -/
def mkModem (arg : PyArg) : MMModem :=
  ⟨ModemManagerObject.object_path "Modem" arg⟩

/-- `DBusInterface.get_property` on a modem: look the name up in the
snapshot and `type_cast` the wire value; `None` when absent. -/
def MMModem.get_property (env : BusEnv) (m : MMModem) (name : String) : Option PyVal :=
  match m.obj_path with
  | some p => (env.modemProp p name).map DBus.type_cast
  | none => none

/-- A constructed `MMModemSms`, identified by its bound object path. -/
structure MMModemSms where
  obj_path : Option String
deriving DecidableEq

/-- The `MMModemSms(sms)` constructor: re-encode the candidate as an SMS
object path and bind to it. -/
def mkSms (arg : PyArg) : MMModemSms :=
  ⟨ModemManagerObject.object_path "SMS" arg⟩

/-- `DBusInterface.get_property` on an SMS object. -/
def MMModemSms.get_property (env : BusEnv) (m : MMModemSms) (name : String) : Option PyVal :=
  match m.obj_path with
  | some p => (env.smsProp p name).map DBus.type_cast
  | none => none

/-- `MMModemSms.State()`. -/
def MMModemSms.State (env : BusEnv) (m : MMModemSms) : Option PyVal :=
  MMModemSms.get_property env m "State"

/-- `MMModemSms.Number()`. -/
def MMModemSms.Number (env : BusEnv) (m : MMModemSms) : Option PyVal :=
  MMModemSms.get_property env m "Number"

/-- `MMModemSms.Timestamp()`. -/
def MMModemSms.Timestamp (env : BusEnv) (m : MMModemSms) : Option PyVal :=
  MMModemSms.get_property env m "Timestamp"

/-- `MMModemSms.get_datetime()`: parse the `Timestamp` property if it is
a truthy value, returning `None` on a parse failure (logged as a
warning).  A falsy timestamp (absent, or the empty string) is skipped;
a non-string truthy value, on which `fromisoformat` would raise an
uncaught `TypeError`, is outside this model and treated as absent. -/
def MMModemSms.get_datetime (env : BusEnv) (m : MMModemSms) : Option PyDateTime :=
  match MMModemSms.Timestamp env m with
  | some (.pStr s) => if s = "" then none else datetime_fromisoformat s
  | _ => none

/-- The filter predicate of `get_sms`:
`x.State() == MMSmsState.MM_SMS_STATE_RECEIVED`.  Python `==` between
the cast property value and the `int` constant is true exactly for the
equal integer. -/
def smsStateIsReceived (env : BusEnv) (m : MMModemSms) : Bool :=
  match MMModemSms.State env m with
  | some (.pInt n) => n == MMSmsState.MM_SMS_STATE_RECEIVED
  | _ => false

/-- The sort key of `get_sms`: `x.get_datetime() or datetime.min`. -/
def smsSortKey (env : BusEnv) (m : MMModemSms) : PyDateTime :=
  (MMModemSms.get_datetime env m).getD datetime_min

/-- The comparison `list.sort(key=..., reverse=reverse)` sorts by:
with `reverse` the later key comes first, otherwise the earlier. -/
def smsSortLe (env : BusEnv) (reverse : Bool) (a b : MMModemSms) : Bool :=
  if reverse then dtLe (smsSortKey env b) (smsSortKey env a)
  else dtLe (smsSortKey env a) (smsSortKey env b)

/-- Stable insertion of `x` (an element earlier in the original list)
into an already sorted list: `x` goes before the first element it
compares `le` to, hence before equal keys. -/
def pyInsertSorted (le : α → α → Bool) (x : α) : List α → List α
  | [] => [x]
  | b :: t => if le x b then x :: b :: t else b :: pyInsertSorted le x t

/-- Python `list.sort` semantics (a stable sort by a boolean total
preorder), modelled as stable insertion sort. -/
def pySortBy (le : α → α → Bool) : List α → List α
  | [] => []
  | x :: xs => pyInsertSorted le x (pySortBy le xs)

/-- `MMModemMessaging.Messages()` of the messaging interface borrowed
from `modem`: the listed SMS object paths. -/
def MMModemMessaging.Messages (env : BusEnv) (modem : MMModem) : List String :=
  match modem.obj_path with
  | some p => env.messagesOf p
  | none => []

/-- The `sms is None` branch of `MMModemMessaging.get_sms`: construct an
`MMModemSms` per listed path, keep those in state `RECEIVED`, and sort
by timestamp (`reverse=True`, the default, is most-recent-first). -/
def MMModemMessaging.get_sms_received (env : BusEnv) (modem : MMModem)
    (reverse : Bool := true) : List MMModemSms :=
  pySortBy (smsSortLe env reverse)
    (((MMModemMessaging.Messages env modem).map (fun x => mkSms (.pstr x))).filter
      (smsStateIsReceived env))

/-- The filtered, still enumeration-ordered message list `get_sms`
sorts: one constructed `MMModemSms` per listed path, kept when in state
`RECEIVED`. -/
def receivedCandidates (env : BusEnv) (modem : MMModem) : List MMModemSms :=
  ((MMModemMessaging.Messages env modem).map (fun x => mkSms (.pstr x))).filter
    (smsStateIsReceived env)

/-- Whether a message's sort key is an offset-aware datetime. -/
def smsKeyIsAware (env : BusEnv) (m : MMModemSms) : Bool :=
  (smsSortKey env m).utcoffsetUs.isSome

/-- The sort comparison with Python's datetime semantics on homogeneous
keys: wall-clock order for naive keys, instant order for aware keys
(mixed pairs, on which Python raises, never reach the sort in
`get_sms_received_py`). -/
def smsSortLePy (env : BusEnv) (reverse : Bool) (a b : MMModemSms) : Bool :=
  if reverse then dtLePy (smsSortKey env b) (smsSortKey env a)
  else dtLePy (smsSortKey env a) (smsSortKey env b)

/-- Instant-based sort comparison (what `dtLePy` computes on two aware
keys). -/
def smsSortInstLe (env : BusEnv) (reverse : Bool) (a b : MMModemSms) : Bool :=
  if reverse then decide (dtInstantUs (smsSortKey env b) ≤ dtInstantUs (smsSortKey env a))
  else decide (dtInstantUs (smsSortKey env a) ≤ dtInstantUs (smsSortKey env b))

/-- The `sms is None` branch of `get_sms` with Python's failure mode
made explicit: `list.sort` compares adjacent keys while scanning for
runs, so a key list containing both a naive and an aware datetime always
raises `TypeError` (uncaught in the source); a homogeneous list sorts
stably with the datetime order.  `get_sms_received` above is the total
sort pipeline; on an all-naive key set the two agree (see
`claim_C2_received_sorted`). -/
def MMModemMessaging.get_sms_received_py (env : BusEnv) (modem : MMModem)
    (reverse : Bool := true) : Except String (List MMModemSms) :=
  if (receivedCandidates env modem).any (smsKeyIsAware env) &&
      (receivedCandidates env modem).any (fun m => !smsKeyIsAware env m) then
    .error "TypeError: cannot compare offset-naive and offset-aware datetimes"
  else .ok (pySortBy (smsSortLePy env reverse) (receivedCandidates env modem))

/-- The `sms` branch of `MMModemMessaging.get_sms`: encode the candidate
as an SMS path and construct only if that path is listed in the live
`Messages` property (an encoding failure makes the membership test
`None in ...`, which is false). -/
def MMModemMessaging.get_sms_byId (env : BusEnv) (modem : MMModem) (sms : PyArg) :
    Option MMModemSms :=
  match ModemManagerObject.object_path "SMS" sms with
  | some smspath =>
    if smspath ∈ MMModemMessaging.Messages env modem then some (mkSms (.pstr smspath))
    else none
  | none => none

/-- `ModemManager.get_modems_list()`: keep the `dbus.ObjectPath`-typed
keys of the managed-object enumeration, as strings. -/
def ModemManager.get_modems_list (env : BusEnv) : List String :=
  env.managedObjectKeys.filterMap
    (fun p => match p with | .dPath s => some s | _ => none)

/-- `ModemManager.get_modem(modem)`: encode the candidate as a Modem
path and construct an `MMModem` only if that path is in the enumerated
list (an encoding failure makes the membership test false). -/
def ModemManager.get_modem (env : BusEnv) (modem : PyArg) : Option MMModem :=
  match ModemManagerObject.object_path "Modem" modem with
  | some mpath =>
    if mpath ∈ ModemManager.get_modems_list env then some (mkModem (.pstr mpath))
    else none
  | none => none

/-- `ModemManager.get_first()`: the first enumerated modem, or `None`
if none are attached. -/
def ModemManager.get_first (env : BusEnv) : Option MMModem :=
  match ModemManager.get_modems_list env with
  | [] => none
  | m :: _ => ModemManager.get_modem env (.pstr m)

/-- The `get_modem_by` allow-list of property names. -/
def mmPropertyAllowList : List String :=
  ["Manufacturer", "Model", "EquipmentIdentifier", "OwnNumbers", "PrimaryPort", "State"]

/-- Python's `list(filter(pred, xs))` where the predicate may raise:
elements are tested left to right and the first exception propagates. -/
def pyFilterExcept (f : α → Except String Bool) : List α → Except String (List α)
  | [] => .ok []
  | a :: t => do
    let b ← f a
    let r ← pyFilterExcept f t
    return if b then a :: r else r

/-- Python `value in container` for the cast property value: substring
test on a string, `==`-membership on a list (whose non-string elements
never equal a string).  `value in None` - an absent property - and
membership on a non-container raise `TypeError`, which nothing in
`get_modem_by` catches. -/
def pyInValue (value : String) : Option PyVal → Except String Bool
  | some (.pStr s) => .ok (containsSub value.data s.data)
  | some (.pList l) =>
    .ok (l.any (fun v => match v with | .pStr t => t == value | _ => false))
  | some _ => .error "TypeError: argument is not iterable"
  | none => .error "TypeError: argument of type NoneType is not iterable"

/-- The return shape of `get_modem_by`: a single modem, a (possibly
empty) list of modems, or Python `None`. -/
inductive GetModemByResult where
  | modem (m : MMModem)
  | modems (l : List MMModem)
  | pynone
deriving DecidableEq

/-- `ModemManager.get_modem_by(name, value)`: with no value, fall back
to `get_first()`; with an allow-listed name, keep the enumerated modems
whose property contains the value, returning the modem itself for
exactly one match and the list otherwise; any other name yields `None`.
The `Except` layer carries the `TypeError` an absent property would
raise out of the filter. -/
def ModemManager.get_modem_by (env : BusEnv) (name : String) (value : Option String) :
    Except String GetModemByResult :=
  match value with
  | none =>
    .ok (match ModemManager.get_first env with
         | some m => .modem m
         | none => .pynone)
  | some v =>
    if name ∈ mmPropertyAllowList then
      match pyFilterExcept (fun m => pyInValue v (MMModem.get_property env m name))
          ((ModemManager.get_modems_list env).map (fun x => mkModem (.pstr x))) with
      | .error e => .error e
      | .ok ms =>
        match ms with
        | [m] => .ok (.modem m)
        | _ => .ok (.modems ms)
    else .ok .pynone

/-- `send_email(...)`: the SMTP session runs inside `try/except
Exception`, so a failure is logged and the function returns normally
either way; the Python function returns `None`, so the pair below is
only the observable outcome (success flag and log line), none of which
the caller inspects. -/
def send_email (smtpSession : Except String Unit) : Bool × String :=
  match smtpSession with
  | .ok _ => (true, "Email sent successfully.")
  | .error e => (false, "Failed to send email: " ++ e)

/-- The per-cycle configuration bits `process_messages` reads. -/
structure SmsConfig where
  delete_after_sending : Bool

/-- Observable actions of one poll cycle, in order. -/
inductive Event where
  | fetch
  | send (path : Option String) (ok : Bool)
  | deleteSms (path : Option String) (ok : Bool)
deriving DecidableEq

/-- One poll cycle, `main.process_messages`: resolve the first modem (if
none, do nothing); fetch the received messages; for each, in order, send
the email (failures caught inside `send_email`) and, when
`delete_after_sending` is set, attempt the remote delete inside
`try/except` (failures logged). -/
def process_messages (env : BusEnv) (cfg : SmsConfig) : List Event :=
  match ModemManager.get_first env with
  | none => []
  | some modem =>
    let msgs := MMModemMessaging.get_sms_received env modem true
    Event.fetch ::
      msgs.flatMap (fun m =>
        Event.send m.obj_path (send_email (env.smtpResult m.obj_path)).1 ::
          (if cfg.delete_after_sending then
            [Event.deleteSms m.obj_path (env.deleteOk m.obj_path)]
          else []))

/-- The messages one cycle processes: none when no modem resolves,
otherwise the sorted received messages of the first modem. -/
def cycle_messages (env : BusEnv) : List MMModemSms :=
  match ModemManager.get_first env with
  | none => []
  | some modem => MMModemMessaging.get_sms_received env modem true

/-- The target of a send event, if any. -/
def sendTarget : Event → Option (Option String)
  | .send p _ => some p
  | _ => none

/-- The target of a delete event, if any. -/
def deleteTarget : Event → Option (Option String)
  | .deleteSms p _ => some p
  | _ => none

/-- Object path of the demo modem used in concrete checks. -/
def demoModemPath : String := "/org/freedesktop/ModemManager1/Modem/0"

/-- Object path of the first demo SMS. -/
def demoSmsPath1 : String := "/org/freedesktop/ModemManager1/SMS/1"

/-- Object path of the second demo SMS. -/
def demoSmsPath2 : String := "/org/freedesktop/ModemManager1/SMS/2"

/-- Wire properties of the demo SMS objects: both are in state
`RECEIVED` (a `dbus.UInt32`), with string timestamps a day apart. -/
def demoSmsProp (p name : String) : Option PyVal :=
  if p = demoSmsPath1 then
    if name = "State" then some (.dU32 3)
    else if name = "Number" then some (.dStr "+491701234567")
    else if name = "Text" then some (.dStr "Hi")
    else if name = "Timestamp" then some (.dStr "2024-01-01T10:00:00")
    else none
  else if p = demoSmsPath2 then
    if name = "State" then some (.dU32 3)
    else if name = "Number" then some (.dStr "+491707654321")
    else if name = "Text" then some (.dStr "Hello")
    else if name = "Timestamp" then some (.dStr "2024-01-02T10:00:00")
    else none
  else none

/-- A concrete bus environment: one modem exposing two received
messages, with every external call succeeding. -/
def demoEnv : BusEnv where
  managedObjectKeys := [.dPath demoModemPath]
  modemProp := fun p name =>
    if p = demoModemPath ∧ name = "OwnNumbers" then some (.dArr [.dStr "+4915112345678"])
    else none
  messagesOf := fun p => if p = demoModemPath then [demoSmsPath1, demoSmsPath2] else []
  smsProp := demoSmsProp
  smtpResult := fun _ => .ok ()
  deleteOk := fun _ => true

/-- The modem `demoEnv` resolves. -/
def demoModem : MMModem := ⟨some demoModemPath⟩

/-- The first demo message, as constructed by the listing. -/
def demoSms1 : MMModemSms := ⟨some demoSmsPath1⟩

/-- The second demo message, as constructed by the listing. -/
def demoSms2 : MMModemSms := ⟨some demoSmsPath2⟩

/-- The demo environment with an SMTP session that always fails. -/
def demoEnvSmtpFail : BusEnv :=
  { demoEnv with smtpResult := fun _ => .error "SMTPAuthenticationError" }

/-- A bus environment with no managed objects at all. -/
def emptyEnv : BusEnv where
  managedObjectKeys := []
  modemProp := fun _ _ => none
  messagesOf := fun _ => []
  smsProp := fun _ _ => none
  smtpResult := fun _ => .ok ()
  deleteOk := fun _ => true

/-- Wire properties for a message set mixing an offset-aware timestamp
with a missing one: both messages are in state `RECEIVED`, the first
has timestamp `"2024-01-01T10:00:00+02:00"`, the second none. -/
def mixedTzSmsProp (p name : String) : Option PyVal :=
  if p = demoSmsPath1 then
    if name = "State" then some (.dU32 3)
    else if name = "Timestamp" then some (.dStr "2024-01-01T10:00:00+02:00")
    else none
  else if p = demoSmsPath2 then
    if name = "State" then some (.dU32 3)
    else none
  else none

/-- The demo environment with the mixed aware/missing timestamps. -/
def mixedTzEnv : BusEnv :=
  { demoEnv with smsProp := mixedTzSmsProp }

/-- The boolean outcome of a successful membership test (`false` when it
would raise), used to state the filter `get_modem_by` computes when no
property is absent. -/
def pyInOkB (v : String) (o : Option PyVal) : Bool :=
  match pyInValue v o with
  | .ok b => b
  | .error _ => false

theorem type_cast_list_eq_map (l : List PyVal) :
    DBus.type_cast_list l = l.map DBus.type_cast := by
  induction l with
  | nil => rfl
  | cons v t ih => simp [DBus.type_cast_list, ih]

theorem pyInsertSorted_perm (le : α → α → Bool) (x : α) (l : List α) :
    List.Perm (pyInsertSorted le x l) (x :: l) := by
  induction l with
  | nil => exact List.Perm.refl _
  | cons b t ih =>
    simp only [pyInsertSorted]
    cases hxb : le x b with
    | true => simp
    | false =>
      simp only [Bool.false_eq_true, if_false]
      exact (ih.cons b).trans (List.Perm.swap x b t)

theorem pySortBy_perm (le : α → α → Bool) (l : List α) :
    List.Perm (pySortBy le l) l := by
  induction l with
  | nil => exact List.Perm.refl _
  | cons x xs ih =>
    exact (pyInsertSorted_perm le x (pySortBy le xs)).trans (ih.cons x)

theorem mem_pySortBy (le : α → α → Bool) (l : List α) (a : α) :
    a ∈ pySortBy le l ↔ a ∈ l :=
  (pySortBy_perm le l).mem_iff

theorem pyInsertSorted_pairwise (le : α → α → Bool)
    (htot : ∀ a b, le a b = true ∨ le b a = true)
    (htr : ∀ a b c, le a b = true → le b c = true → le a c = true)
    (x : α) (l : List α) (h : l.Pairwise (fun a b => le a b = true)) :
    (pyInsertSorted le x l).Pairwise (fun a b => le a b = true) := by
  induction l with
  | nil => simp [pyInsertSorted]
  | cons b t ih =>
    rcases List.pairwise_cons.mp h with ⟨hb, ht⟩
    simp only [pyInsertSorted]
    cases hxb : le x b with
    | true =>
      simp only [if_true]
      refine List.pairwise_cons.mpr ⟨?_, h⟩
      intro y hy
      rcases List.mem_cons.mp hy with rfl | hy
      · exact hxb
      · exact htr x b y hxb (hb y hy)
    | false =>
      simp only [Bool.false_eq_true, if_false]
      refine List.pairwise_cons.mpr ⟨?_, ih ht⟩
      intro y hy
      rcases List.mem_cons.mp ((pyInsertSorted_perm le x t).mem_iff.mp hy) with rfl | hy'
      · rcases htot y b with hyb | hby
        · rw [hxb] at hyb; exact absurd hyb (by simp)
        · exact hby
      · exact hb y hy'

theorem pySortBy_pairwise (le : α → α → Bool)
    (htot : ∀ a b, le a b = true ∨ le b a = true)
    (htr : ∀ a b c, le a b = true → le b c = true → le a c = true)
    (l : List α) :
    (pySortBy le l).Pairwise (fun a b => le a b = true) := by
  induction l with
  | nil => simp [pySortBy]
  | cons x xs ih => exact pyInsertSorted_pairwise le htot htr x _ ih

theorem pyInsertSorted_filter (le : α → α → Bool) (p : α → Bool)
    (hp : ∀ a b, p a = true → p b = true → le a b = true)
    (x : α) (l : List α) :
    (pyInsertSorted le x l).filter p = (x :: l).filter p := by
  induction l with
  | nil => simp [pyInsertSorted]
  | cons b t ih =>
    simp only [pyInsertSorted]
    cases hxb : le x b with
    | true => simp
    | false =>
      simp only [Bool.false_eq_true, if_false]
      cases hpx : p x with
      | false =>
        simp only [List.filter_cons, hpx, Bool.false_eq_true, if_false]
        rw [ih]
        simp [List.filter_cons, hpx]
      | true =>
        cases hpb : p b with
        | true =>
          have : le x b = true := hp x b hpx hpb
          rw [hxb] at this
          exact absurd this (by simp)
        | false =>
          simp only [List.filter_cons, hpx, hpb, Bool.false_eq_true, if_false, if_true]
          rw [ih]
          simp [List.filter_cons, hpx]

theorem pySortBy_filter (le : α → α → Bool) (p : α → Bool)
    (hp : ∀ a b, p a = true → p b = true → le a b = true)
    (l : List α) :
    (pySortBy le l).filter p = l.filter p := by
  induction l with
  | nil => rfl
  | cons x xs ih =>
    show (pyInsertSorted le x (pySortBy le xs)).filter p = _
    rw [pyInsertSorted_filter le p hp, List.filter_cons, List.filter_cons, ih]

theorem lexLeNat_nil (l : List Nat) : lexLeNat [] l = true := rfl

theorem lexLeNat_cons (a b : Nat) (as bs : List Nat) :
    lexLeNat (a :: as) (b :: bs) =
      (decide (a < b) || (decide (a = b) && lexLeNat as bs)) := rfl

theorem lexLeNat_refl (l : List Nat) : lexLeNat l l = true := by
  induction l with
  | nil => rfl
  | cons a t ih => simp [lexLeNat, ih]

theorem lexLeNat_total (a b : List Nat) :
    lexLeNat a b = true ∨ lexLeNat b a = true := by
  induction a generalizing b with
  | nil => exact .inl rfl
  | cons x xs ih =>
    cases b with
    | nil => exact .inr rfl
    | cons y ys =>
      simp only [lexLeNat, Bool.or_eq_true, Bool.and_eq_true, decide_eq_true_eq]
      rcases Nat.lt_trichotomy x y with h | h | h
      · exact .inl (.inl h)
      · rcases ih ys with hx | hx
        · exact .inl (.inr ⟨h, hx⟩)
        · exact .inr (.inr ⟨h.symm, hx⟩)
      · exact .inr (.inl h)

theorem lexLeNat_trans (a b c : List Nat)
    (hab : lexLeNat a b = true) (hbc : lexLeNat b c = true) :
    lexLeNat a c = true := by
  induction a generalizing b c with
  | nil => rfl
  | cons x xs ih =>
    cases b with
    | nil => simp [lexLeNat] at hab
    | cons y ys =>
      cases c with
      | nil => simp [lexLeNat] at hbc
      | cons z zs =>
        simp only [lexLeNat, Bool.or_eq_true, Bool.and_eq_true, decide_eq_true_eq] at hab hbc ⊢
        rcases hab with h1 | ⟨h1, h1'⟩ <;> rcases hbc with h2 | ⟨h2, h2'⟩
        · exact .inl (h1.trans h2)
        · exact .inl (h2 ▸ h1)
        · exact .inl (h1 ▸ h2)
        · exact .inr ⟨h1.trans h2, ih ys zs h1' h2'⟩

theorem dtLe_refl (d : PyDateTime) : dtLe d d = true := lexLeNat_refl _

theorem dtLe_total (a b : PyDateTime) : dtLe a b = true ∨ dtLe b a = true :=
  lexLeNat_total _ _

theorem dtLe_trans (a b c : PyDateTime)
    (hab : dtLe a b = true) (hbc : dtLe b c = true) : dtLe a c = true :=
  lexLeNat_trans _ _ _ hab hbc

theorem dtLe_min (d : PyDateTime)
    (hy : 1 ≤ d.year) (hm : 1 ≤ d.month) (hd : 1 ≤ d.day) :
    dtLe datetime_min d = true := by
  obtain ⟨y, mo, dd, h, mi, s, us, off⟩ := d
  simp only [dtLe, datetime_min, dtKeyList] at *
  rcases Nat.lt_or_ge 1 y with h1 | h1
  · simp [lexLeNat_cons, h1]
  · have hy1 : y = 1 := by omega
    subst hy1
    rcases Nat.lt_or_ge 1 mo with h2 | h2
    · simp [lexLeNat_cons, h2]
    · have hm1 : mo = 1 := by omega
      subst hm1
      rcases Nat.lt_or_ge 1 dd with h3 | h3
      · simp [lexLeNat_cons, h3]
      · have hd1 : dd = 1 := by omega
        subst hd1
        rcases Nat.eq_zero_or_pos h with h4 | h4
        · subst h4
          rcases Nat.eq_zero_or_pos mi with h5 | h5
          · subst h5
            rcases Nat.eq_zero_or_pos s with h6 | h6
            · subst h6
              rcases Nat.eq_zero_or_pos us with h7 | h7
              · subst h7; rfl
              · simp [lexLeNat_cons, lexLeNat_nil, h7]
            · simp [lexLeNat_cons, h6]
          · simp [lexLeNat_cons, h5]
        · simp [lexLeNat_cons, h4]

theorem smsSortLe_total (env : BusEnv) (r : Bool) (a b : MMModemSms) :
    smsSortLe env r a b = true ∨ smsSortLe env r b a = true := by
  cases r <;> simp only [smsSortLe, if_true, Bool.false_eq_true, if_false]
  · exact dtLe_total _ _
  · exact (dtLe_total _ _).symm

theorem smsSortLe_trans (env : BusEnv) (r : Bool) (a b c : MMModemSms)
    (hab : smsSortLe env r a b = true) (hbc : smsSortLe env r b c = true) :
    smsSortLe env r a c = true := by
  cases r <;> simp only [smsSortLe, if_true, Bool.false_eq_true, if_false] at hab hbc ⊢
  · exact dtLe_trans _ _ _ hab hbc
  · exact dtLe_trans _ _ _ hbc hab

theorem smsSortLe_of_key_eq (env : BusEnv) (r : Bool) (a b : MMModemSms)
    (h : smsSortKey env a = smsSortKey env b) : smsSortLe env r a b = true := by
  cases r <;> simp only [smsSortLe, if_true, Bool.false_eq_true, if_false, h]
  · exact dtLe_refl _
  · exact dtLe_refl _

theorem natToDecAux_succ (fuel n : Nat) :
    natToDecAux (fuel + 1) n =
      if n < 10 then [Char.ofNat (48 + n)]
      else natToDecAux fuel (n / 10) ++ [Char.ofNat (48 + n % 10)] := rfl

theorem splitOnChar_cons (sep c : Char) (t : List Char) (h : List Char)
    (r : List (List Char)) (hr : splitOnChar sep t = h :: r) :
    splitOnChar sep (c :: t) = if c = sep then [] :: h :: r else (c :: h) :: r := by
  unfold splitOnChar
  rw [hr]

theorem digitChar_spec (d : Nat) (h : d < 10) :
    (Char.ofNat (48 + d)).isDigit = true ∧ digitVal (Char.ofNat (48 + d)) = d := by
  interval_cases d <;> exact ⟨by decide, by decide⟩

theorem natToDecAux_spec (fuel : Nat) :
    ∀ n, n < 10 ^ (fuel + 1) →
      (∀ c ∈ natToDecAux (fuel + 1) n, c.isDigit = true) ∧
        natToDecAux (fuel + 1) n ≠ [] ∧
        (natToDecAux (fuel + 1) n).foldl (fun a c => a * 10 + digitVal c) 0 = n := by
  induction fuel with
  | zero =>
    intro n hn
    have h10 : n < 10 := by simpa using hn
    rw [natToDecAux_succ, if_pos h10]
    refine ⟨?_, by simp, ?_⟩
    · intro c hc
      rcases List.mem_singleton.mp hc with rfl
      exact (digitChar_spec n h10).1
    · simp [List.foldl, (digitChar_spec n h10).2]
  | succ fuel ih =>
    intro n hn
    by_cases h10 : n < 10
    · rw [natToDecAux_succ, if_pos h10]
      refine ⟨?_, by simp, ?_⟩
      · intro c hc
        rcases List.mem_singleton.mp hc with rfl
        exact (digitChar_spec n h10).1
      · simp [List.foldl, (digitChar_spec n h10).2]
    · have hdiv : n / 10 < 10 ^ (fuel + 1) := by
        rw [Nat.div_lt_iff_lt_mul (by norm_num)]
        calc n < 10 ^ (fuel + 1 + 1) := hn
        _ = 10 ^ (fuel + 1) * 10 := by ring
      obtain ⟨hall, hne, hfold⟩ := ih (n / 10) hdiv
      have hmod : n % 10 < 10 := Nat.mod_lt _ (by norm_num)
      rw [natToDecAux_succ, if_neg h10]
      refine ⟨?_, by simp, ?_⟩
      · intro c hc
        rcases List.mem_append.mp hc with hc | hc
        · exact hall c hc
        · rcases List.mem_singleton.mp hc with rfl
          exact (digitChar_spec _ hmod).1
      · rw [List.foldl_append, hfold]
        simp only [List.foldl, (digitChar_spec _ hmod).2]
        omega

theorem natToDec_spec (n : Nat) :
    (∀ c ∈ natToDec n, c.isDigit = true) ∧ natToDec n ≠ [] ∧
      (natToDec n).foldl (fun a c => a * 10 + digitVal c) 0 = n := by
  have hlt : n < 10 ^ (n + 1) :=
    lt_of_lt_of_le (Nat.lt_pow_self (by norm_num) n)
      (Nat.pow_le_pow_right (by norm_num) (Nat.le_succ n))
  exact natToDecAux_spec n n hlt

theorem parseDigits_natToDec (n : Nat) : parseDigits (natToDec n) = some n := by
  obtain ⟨hall, hne, hfold⟩ := natToDec_spec n
  unfold parseDigits
  rw [if_pos ⟨hne, List.all_eq_true.mpr hall⟩, hfold]

theorem parseDigits_none (ds : List Char)
    (h : ds = [] ∨ ∃ c ∈ ds, c.isDigit = false) : parseDigits ds = none := by
  unfold parseDigits
  rcases h with rfl | ⟨c, hc, hcd⟩
  · simp
  · rw [if_neg]
    rintro ⟨-, hall⟩
    rw [List.all_eq_true.mp hall c hc] at hcd
    exact absurd hcd (by simp)

theorem isDigit_not_special (c : Char) (h : c.isDigit = true) :
    c.isWhitespace = false ∧ c ≠ '-' ∧ c ≠ '+' ∧ c ≠ '/' := by
  refine ⟨?_, ?_, ?_, ?_⟩
  · cases hw : c.isWhitespace with
    | false => rfl
    | true =>
      simp only [Char.isWhitespace, Bool.or_eq_true, decide_eq_true_eq] at hw
      rcases hw with ((rfl | rfl) | rfl) | rfl <;> exact absurd h (by decide)
  · rintro rfl; exact absurd h (by decide)
  · rintro rfl; exact absurd h (by decide)
  · rintro rfl; exact absurd h (by decide)

theorem dropWhile_all_false (p : α → Bool) (l : List α)
    (h : ∀ c ∈ l, p c = false) : l.dropWhile p = l := by
  cases l with
  | nil => rfl
  | cons a t => simp [List.dropWhile_cons, h a (List.mem_cons_self a t)]

theorem pyStrip_no_ws (l : List Char)
    (h : ∀ c ∈ l, c.isWhitespace = false) : pyStrip l = l := by
  unfold pyStrip
  rw [dropWhile_all_false _ _ h,
    dropWhile_all_false _ _ (fun c hc => h c (List.mem_reverse.mp hc)),
    List.reverse_reverse]

theorem mem_pyStrip (l : List Char) (c : Char) (h : c ∈ pyStrip l) : c ∈ l := by
  unfold pyStrip at h
  have h1 := List.mem_reverse.mp h
  have h2 := (List.dropWhile_sublist _).subset h1
  have h3 := List.mem_reverse.mp h2
  exact (List.dropWhile_sublist _).subset h3

theorem pyStrToInt_natToDec (n : Nat) :
    pyStrToInt (String.mk (natToDec n)) = some (n : Int) := by
  obtain ⟨hall, hne, -⟩ := natToDec_spec n
  unfold pyStrToInt
  have hdata : (String.mk (natToDec n)).data = natToDec n := rfl
  rw [hdata, pyStrip_no_ws _ (fun c hc => (isDigit_not_special c (hall c hc)).1)]
  cases hd : natToDec n with
  | nil => exact absurd hd hne
  | cons c rest =>
    have hcd : c.isDigit = true := hall c (by rw [hd]; exact List.mem_cons_self c rest)
    simp only [pyIntCore, if_neg (isDigit_not_special c hcd).2.1,
      if_neg (isDigit_not_special c hcd).2.2.1, ← hd, parseDigits_natToDec]
    rfl

theorem pyStrToInt_intToDec (k : Int) : pyStrToInt (intToDec k) = some k := by
  by_cases hk : k < 0
  · unfold intToDec
    rw [if_pos hk]
    obtain ⟨hall, hne, -⟩ := natToDec_spec k.natAbs
    unfold pyStrToInt
    have hdata : ("-" ++ String.mk (natToDec k.natAbs)).data = '-' :: natToDec k.natAbs := by
      rw [String.data_append]; rfl
    rw [hdata, pyStrip_no_ws]
    · simp only [pyIntCore, if_pos rfl, parseDigits_natToDec, Option.map_some']
      show some (-(k.natAbs : Int)) = some k
      refine congrArg some ?_
      omega
    · intro c hc
      rcases List.mem_cons.mp hc with rfl | hc
      · decide
      · exact (isDigit_not_special c (hall c hc)).1
  · unfold intToDec
    rw [if_neg hk, pyStrToInt_natToDec]
    congr 1
    omega

theorem isPrefixOf_append_self (l r : List Char) : l.isPrefixOf (l ++ r) = true := by
  induction l with
  | nil => cases r <;> rfl
  | cons a t ih => simp [List.isPrefixOf, ih]

theorem containsSub_of_isPrefixOf (needle hay : List Char)
    (h : needle.isPrefixOf hay = true) : containsSub needle hay = true := by
  cases hay with
  | nil =>
    cases needle with
    | nil => rfl
    | cons c t => exact absurd h (by simp [List.isPrefixOf])
  | cons c t => simp [containsSub, h]

theorem containsSub_append_self (l r : List Char) : containsSub l (l ++ r) = true :=
  containsSub_of_isPrefixOf l (l ++ r) (isPrefixOf_append_self l r)

theorem splitOnChar_ne_nil (sep : Char) (l : List Char) : splitOnChar sep l ≠ [] := by
  cases l with
  | nil => simp [splitOnChar]
  | cons c t =>
    cases hr : splitOnChar sep t with
    | nil => simp [splitOnChar, hr]
    | cons h r =>
      rw [splitOnChar_cons sep c t h r hr]
      by_cases hc : c = sep <;> simp [hc]

theorem mem_of_mem_splitOnChar (sep : Char) (l : List Char) :
    ∀ part ∈ splitOnChar sep l, ∀ c ∈ part, c ∈ l := by
  induction l with
  | nil =>
    intro part hp c hc
    simp only [splitOnChar, List.mem_singleton] at hp
    subst hp
    exact absurd hc (List.not_mem_nil c)
  | cons d t ih =>
    intro part hp c hc
    cases hr : splitOnChar sep t with
    | nil => exact absurd hr (splitOnChar_ne_nil sep t)
    | cons h rs =>
      rw [splitOnChar_cons sep d t h rs hr] at hp
      by_cases hd : d = sep
      · rw [if_pos hd] at hp
        rcases List.mem_cons.mp hp with rfl | hp
        · exact absurd hc (List.not_mem_nil c)
        · exact List.mem_cons_of_mem d (ih part (hr ▸ hp) c hc)
      · rw [if_neg hd] at hp
        rcases List.mem_cons.mp hp with rfl | hp
        · rcases List.mem_cons.mp hc with rfl | hc
          · exact List.mem_cons_self c t
          · exact List.mem_cons_of_mem d
              (ih h (hr ▸ List.mem_cons_self h rs) c hc)
        · exact List.mem_cons_of_mem d
            (ih part (hr ▸ List.mem_cons_of_mem h hp) c hc)

theorem splitOnChar_no_sep (sep : Char) (l : List Char) (h : sep ∉ l) :
    splitOnChar sep l = [l] := by
  induction l with
  | nil => rfl
  | cons c t ih =>
    have hc : c ≠ sep := fun hc => h (hc ▸ List.mem_cons_self c t)
    have ht : sep ∉ t := fun ht => h (List.mem_cons_of_mem c ht)
    rw [splitOnChar_cons sep c t t [] (ih ht), if_neg hc]

theorem splitOnChar_length_two (sep : Char) (l : List Char) (h : sep ∈ l) :
    2 ≤ (splitOnChar sep l).length := by
  induction l with
  | nil => exact absurd h (List.not_mem_nil sep)
  | cons c t ih =>
    cases hr : splitOnChar sep t with
    | nil => exact absurd hr (splitOnChar_ne_nil sep t)
    | cons hh rs =>
      rw [splitOnChar_cons sep c t hh rs hr]
      by_cases hc : c = sep
      · simp [hc]
      · rw [if_neg hc]
        have ht : sep ∈ t := by
          rcases List.mem_cons.mp h with hceq | ht
          · exact absurd hceq.symm hc
          · exact ht
        have h2 := ih ht
        rw [hr] at h2
        simpa using h2

theorem splitOnChar_getLast_append (sep : Char) (pre suf : List Char) (h : sep ∉ suf) :
    (splitOnChar sep (pre ++ sep :: suf)).getLastD [] = suf := by
  induction pre with
  | nil =>
    rw [List.nil_append,
      splitOnChar_cons sep sep suf suf [] (splitOnChar_no_sep sep suf h), if_pos rfl]
    rfl
  | cons c pre ih =>
    rw [List.cons_append]
    cases hr : splitOnChar sep (pre ++ sep :: suf) with
    | nil => exact absurd hr (splitOnChar_ne_nil sep _)
    | cons hh rs =>
      have hlen : 2 ≤ (splitOnChar sep (pre ++ sep :: suf)).length :=
        splitOnChar_length_two sep _ (List.mem_append.mpr (.inr (List.mem_cons_self sep suf)))
      rw [hr] at hlen
      obtain ⟨a, rs', rfl⟩ : ∃ a rs', rs = a :: rs' := by
        cases rs with
        | nil => simp at hlen
        | cons a rs' => exact ⟨a, rs', rfl⟩
      rw [hr] at ih
      rw [splitOnChar_cons sep c _ hh (a :: rs') hr]
      by_cases hc : c = sep
      · rw [if_pos hc]
        simpa using ih
      · rw [if_neg hc]
        simp only [List.getLastD_cons] at ih ⊢
        exact ih

theorem mmBasePath_data (obj : String) :
    (mmBasePath obj).data =
      ("/org/freedesktop/ModemManager1/".data ++ obj.data) ++ ['/'] := by
  unfold mmBasePath
  rw [String.data_append, String.data_append]

theorem object_path_pint (obj : String) (k : Int) :
    ModemManagerObject.object_path obj (.pint k) = some (mmBasePath obj ++ intToDec k) := rfl

theorem object_path_pstr (obj s : String) :
    ModemManagerObject.object_path obj (.pstr s) =
      (pyStrToInt (if containsSub (mmBasePath obj).data s.data then
          String.mk ((splitOnChar '/' s.data).getLastD []) else s)).map
        (fun k => mmBasePath obj ++ intToDec k) := by
  unfold ModemManagerObject.object_path
  by_cases hc : containsSub (mmBasePath obj).data s.data = true
  · simp [hc]
  · simp [hc]

theorem object_path_some_shape (obj : String) (arg : PyArg) (p : String)
    (h : ModemManagerObject.object_path obj arg = some p) :
    ∃ k : Int, p = mmBasePath obj ++ intToDec k := by
  cases arg with
  | pstr s =>
    rw [object_path_pstr] at h
    rcases Option.map_eq_some'.mp h with ⟨k, -, hk⟩
    exact ⟨k, hk.symm⟩
  | pint k =>
    rw [object_path_pint] at h
    exact ⟨k, (Option.some_injective _ h).symm⟩
  | pynone => exact absurd h (by simp [ModemManagerObject.object_path])

theorem intToDec_no_slash (k : Int) : '/' ∉ (intToDec k).data := by
  unfold intToDec
  by_cases hk : k < 0
  · rw [if_pos hk]
    intro hmem
    have hdata : ("-" ++ String.mk (natToDec k.natAbs)).data = '-' :: natToDec k.natAbs := by
      rw [String.data_append]; rfl
    rw [hdata] at hmem
    rcases List.mem_cons.mp hmem with heq | hmem
    · exact absurd heq (by decide)
    · exact absurd rfl (isDigit_not_special '/' ((natToDec_spec k.natAbs).1 _ hmem)).2.2.2
  · rw [if_neg hk]
    intro hmem
    exact absurd rfl (isDigit_not_special '/' ((natToDec_spec k.toNat).1 _ hmem)).2.2.2

theorem object_path_roundtrip (obj : String) (arg : PyArg) (p : String)
    (h : ModemManagerObject.object_path obj arg = some p) :
    ModemManagerObject.object_path obj (.pstr p) = some p := by
  obtain ⟨k, rfl⟩ := object_path_some_shape obj arg p h
  rw [object_path_pstr]
  have hcontains :
      containsSub (mmBasePath obj).data (mmBasePath obj ++ intToDec k).data = true := by
    rw [String.data_append]
    exact containsSub_append_self _ _
  rw [if_pos hcontains]
  have hdata : (mmBasePath obj ++ intToDec k).data =
      ("/org/freedesktop/ModemManager1/".data ++ obj.data) ++ '/' :: (intToDec k).data := by
    rw [String.data_append, mmBasePath_data, List.append_assoc]
    rfl
  rw [hdata, splitOnChar_getLast_append '/' _ _ (intToDec_no_slash k)]
  have hmk : String.mk (intToDec k).data = intToDec k := rfl
  rw [hmk, pyStrToInt_intToDec]
  rfl

theorem pyStrToInt_no_digit (s : String) (h : ∀ c ∈ s.data, c.isDigit = false) :
    pyStrToInt s = none := by
  unfold pyStrToInt
  have hsub : ∀ c ∈ pyStrip s.data, c.isDigit = false :=
    fun c hc => h c (mem_pyStrip _ _ hc)
  cases hp : pyStrip s.data with
  | nil => rfl
  | cons c rest =>
    rw [hp] at hsub
    have hrest : parseDigits rest = none := by
      apply parseDigits_none
      cases rest with
      | nil => exact .inl rfl
      | cons d ds =>
        exact .inr ⟨d, List.mem_cons_self d ds,
          hsub d (List.mem_cons_of_mem c (List.mem_cons_self d ds))⟩
    have hall : parseDigits (c :: rest) = none :=
      parseDigits_none _ (.inr ⟨c, List.mem_cons_self c rest, hsub c (List.mem_cons_self c rest)⟩)
    simp only [pyIntCore]
    by_cases h1 : c = '-'
    · rw [if_pos h1, hrest]; rfl
    · rw [if_neg h1]
      by_cases h2 : c = '+'
      · rw [if_pos h2, hrest]; rfl
      · rw [if_neg h2, hall]; rfl

theorem getLastD_mem_of_ne_nil (l : List α) (d : α) (h : l ≠ []) : l.getLastD d ∈ l := by
  induction l with
  | nil => exact absurd rfl h
  | cons a t ih =>
    rw [List.getLastD_cons]
    cases t with
    | nil => exact List.mem_singleton.mpr rfl
    | cons b u => exact List.mem_cons_of_mem a (ih (by simp))

theorem object_path_no_digit (obj s : String) (h : ∀ c ∈ s.data, c.isDigit = false) :
    ModemManagerObject.object_path obj (.pstr s) = none := by
  rw [object_path_pstr]
  by_cases hc : containsSub (mmBasePath obj).data s.data = true
  · rw [if_pos hc, pyStrToInt_no_digit]
    · rfl
    · intro c hcmem
      have hpart : (splitOnChar '/' s.data).getLastD [] ∈ splitOnChar '/' s.data :=
        getLastD_mem_of_ne_nil _ _ (splitOnChar_ne_nil '/' s.data)
      exact h c (mem_of_mem_splitOnChar '/' s.data _ hpart c hcmem)
  · rw [if_neg hc, pyStrToInt_no_digit _ h]
    rfl

theorem example_fromisoformat :
    datetime_fromisoformat "2024-01-01T10:00:00" = some ⟨2024, 1, 1, 10, 0, 0, 0, none⟩ ∧
    datetime_fromisoformat "2024-01-01T10:00:00+02:00" =
      some ⟨2024, 1, 1, 10, 0, 0, 0, some 7200000000⟩ := ⟨rfl, rfl⟩

theorem mkDatetimeChecked_bounds (y mo d h mi s us : Nat) (off : Option Int) (dt : PyDateTime)
    (hmk : mkDatetimeChecked y mo d h mi s us off = some dt) :
    1 ≤ dt.year ∧ 1 ≤ dt.month ∧ 1 ≤ dt.day := by
  unfold mkDatetimeChecked at hmk
  split_ifs at hmk with hcond
  · cases hmk
    exact ⟨hcond.1, hcond.2.2.1, hcond.2.2.2.2.1⟩

theorem fromisoformat_bounds (str : String) (dt : PyDateTime)
    (h : datetime_fromisoformat str = some dt) :
    1 ≤ dt.year ∧ 1 ≤ dt.month ∧ 1 ≤ dt.day := by
  unfold datetime_fromisoformat at h
  rcases Option.bind_eq_some.mp h with ⟨p, -, hmk⟩
  exact mkDatetimeChecked_bounds _ _ _ _ _ _ _ _ _ hmk

theorem get_datetime_some_shape (env : BusEnv) (m : MMModemSms) (d : PyDateTime)
    (h : MMModemSms.get_datetime env m = some d) :
    ∃ s : String, datetime_fromisoformat s = some d := by
  unfold MMModemSms.get_datetime at h
  cases hts : MMModemSms.Timestamp env m with
  | none =>
    rw [hts] at h
    exact Option.noConfusion h
  | some v =>
    rw [hts] at h
    cases v with
    | pStr s =>
      have h' : (if s = "" then (none : Option PyDateTime) else datetime_fromisoformat s)
          = some d := h
      by_cases hs : s = ""
      · rw [if_pos hs] at h'
        exact Option.noConfusion h'
      · rw [if_neg hs] at h'
        exact ⟨s, h'⟩
    | pyNone => exact Option.noConfusion h
    | dStr s => exact Option.noConfusion h
    | dPath s => exact Option.noConfusion h
    | dI32 n => exact Option.noConfusion h
    | dU32 n => exact Option.noConfusion h
    | dArr l => exact Option.noConfusion h
    | pInt n => exact Option.noConfusion h
    | pList l => exact Option.noConfusion h
    | pOther t => exact Option.noConfusion h

theorem smsSortKey_min_le (env : BusEnv) (m : MMModemSms) :
    dtLe datetime_min (smsSortKey env m) = true := by
  unfold smsSortKey
  cases hd : MMModemSms.get_datetime env m with
  | none => exact dtLe_refl _
  | some d =>
    obtain ⟨s, hs⟩ := get_datetime_some_shape env m d hd
    obtain ⟨h1, h2, h3⟩ := fromisoformat_bounds s d hs
    exact dtLe_min d h1 h2 h3

theorem smsSortKey_of_no_datetime (env : BusEnv) (m : MMModemSms)
    (h : MMModemSms.get_datetime env m = none) : smsSortKey env m = datetime_min := by
  unfold smsSortKey
  rw [h]
  rfl

theorem smsStateIsReceived_iff (env : BusEnv) (m : MMModemSms) :
    smsStateIsReceived env m = true ↔
      MMModemSms.State env m = some (.pInt MMSmsState.MM_SMS_STATE_RECEIVED) := by
  unfold smsStateIsReceived
  cases hst : MMModemSms.State env m with
  | none => simp
  | some v => cases v <;> simp [MMSmsState.MM_SMS_STATE_RECEIVED]

theorem pyFilterExcept_ok (f : α → Except String Bool) (g : α → Bool) (l : List α)
    (h : ∀ a ∈ l, f a = .ok (g a)) :
    pyFilterExcept f l = .ok (l.filter g) := by
  induction l with
  | nil => rfl
  | cons a t ih =>
    have ha := h a (List.mem_cons_self a t)
    have ht := ih (fun b hb => h b (List.mem_cons_of_mem a hb))
    simp only [pyFilterExcept, ha, ht, List.filter_cons]
    cases hg : g a <;> rfl

theorem filterMap_sendTarget_nodelete (env : BusEnv) (msgs : List MMModemSms) :
    (msgs.flatMap (fun m =>
        [Event.send m.obj_path (send_email (env.smtpResult m.obj_path)).1])).filterMap sendTarget
      = msgs.map MMModemSms.obj_path := by
  induction msgs with
  | nil => rfl
  | cons m t ih =>
    rw [List.flatMap_cons, List.map_cons, List.cons_append, List.nil_append,
      List.filterMap_cons, ih]
    rfl

theorem filterMap_sendTarget_delete (env : BusEnv) (msgs : List MMModemSms) :
    (msgs.flatMap (fun m =>
        Event.send m.obj_path (send_email (env.smtpResult m.obj_path)).1 ::
          [Event.deleteSms m.obj_path (env.deleteOk m.obj_path)])).filterMap sendTarget
      = msgs.map MMModemSms.obj_path := by
  induction msgs with
  | nil => rfl
  | cons m t ih =>
    rw [List.flatMap_cons, List.map_cons, List.cons_append, List.cons_append,
      List.nil_append, List.filterMap_cons, List.filterMap_cons, ih]
    rfl

theorem filterMap_deleteTarget_delete (env : BusEnv) (msgs : List MMModemSms) :
    (msgs.flatMap (fun m =>
        Event.send m.obj_path (send_email (env.smtpResult m.obj_path)).1 ::
          [Event.deleteSms m.obj_path (env.deleteOk m.obj_path)])).filterMap deleteTarget
      = msgs.map MMModemSms.obj_path := by
  induction msgs with
  | nil => rfl
  | cons m t ih =>
    rw [List.flatMap_cons, List.map_cons, List.cons_append, List.cons_append,
      List.nil_append, List.filterMap_cons, List.filterMap_cons, ih]
    rfl

theorem pyInsertSorted_congr (le1 le2 : α → α → Bool) (x : α) (l : List α)
    (h : ∀ b ∈ l, le1 x b = le2 x b) :
    pyInsertSorted le1 x l = pyInsertSorted le2 x l := by
  induction l with
  | nil => rfl
  | cons b t ih =>
    simp only [pyInsertSorted]
    rw [h b (List.mem_cons_self b t)]
    by_cases hxb : le2 x b = true
    · simp [hxb]
    · simp only [hxb, if_false, Bool.false_eq_true]
      rw [ih (fun c hc => h c (List.mem_cons_of_mem b hc))]

theorem pySortBy_congr (le1 le2 : α → α → Bool) (l : List α)
    (h : ∀ a ∈ l, ∀ b ∈ l, le1 a b = le2 a b) :
    pySortBy le1 l = pySortBy le2 l := by
  induction l with
  | nil => rfl
  | cons x xs ih =>
    simp only [pySortBy]
    rw [ih (fun a ha b hb =>
      h a (List.mem_cons_of_mem x ha) b (List.mem_cons_of_mem x hb))]
    refine pyInsertSorted_congr le1 le2 x _ (fun b hb => ?_)
    have hbx : b ∈ xs := (mem_pySortBy le2 xs b).mp hb
    exact h x (List.mem_cons_self x xs) b (List.mem_cons_of_mem x hbx)

theorem dtLePy_naive (a b : PyDateTime) (ha : a.utcoffsetUs = none) :
    dtLePy a b = dtLe a b := by
  unfold dtLePy
  cases hb : b.utcoffsetUs <;> rw [ha]

theorem dtLePy_aware (a b : PyDateTime) (oa ob : Int)
    (ha : a.utcoffsetUs = some oa) (hb : b.utcoffsetUs = some ob) :
    dtLePy a b = decide (dtInstantUs a ≤ dtInstantUs b) := by
  unfold dtLePy dtInstantUs
  rw [ha, hb]
  rfl

theorem filterMap_deleteTarget_nodelete (env : BusEnv) (msgs : List MMModemSms) :
    (msgs.flatMap (fun m =>
        [Event.send m.obj_path (send_email (env.smtpResult m.obj_path)).1])).filterMap
      deleteTarget = [] := by
  induction msgs with
  | nil => rfl
  | cons m t ih =>
    rw [List.flatMap_cons, List.cons_append, List.nil_append, List.filterMap_cons, ih]
    rfl

/-- C1: for every remote message set, `received()` (`get_sms` with no id
argument) is a permutation of the constructed messages whose lifecycle
state equals `Received`, and every message in the result has state
exactly `MM_SMS_STATE_RECEIVED` - no message in any other state
(Unknown, Stored, Receiving, Sending, Sent) ever appears. -/
theorem claim_C1_received_filters_state (env : BusEnv) (modem : MMModem) (reverse : Bool) :
    List.Perm (MMModemMessaging.get_sms_received env modem reverse)
      (((MMModemMessaging.Messages env modem).map (fun x => mkSms (.pstr x))).filter
        (smsStateIsReceived env)) ∧
    ∀ m ∈ MMModemMessaging.get_sms_received env modem reverse,
      MMModemSms.State env m = some (.pInt MMSmsState.MM_SMS_STATE_RECEIVED) := by
  constructor
  · exact pySortBy_perm _ _
  · intro m hm
    have hmem := (mem_pySortBy (smsSortLe env reverse) _ m).mp hm
    exact (smsStateIsReceived_iff env m).mp (List.mem_filter.mp hmem).2

/-- Witness for C1 on the demo environment: the first demo message is in
the result and its state is `Received`. -/
theorem claim_C1_witness :
    MMModemSms.State demoEnv demoSms1 = some (.pInt MMSmsState.MM_SMS_STATE_RECEIVED) :=
  (claim_C1_received_filters_state demoEnv demoModem true).2 demoSms1 (by decide)

theorem smsSortInstLe_total (env : BusEnv) (r : Bool) (a b : MMModemSms) :
    smsSortInstLe env r a b = true ∨ smsSortInstLe env r b a = true := by
  cases r <;> simp only [smsSortInstLe, if_true, Bool.false_eq_true, if_false,
    decide_eq_true_eq]
  · exact Int.le_total _ _
  · exact (Int.le_total _ _).symm

theorem smsSortInstLe_trans (env : BusEnv) (r : Bool) (a b c : MMModemSms)
    (hab : smsSortInstLe env r a b = true) (hbc : smsSortInstLe env r b c = true) :
    smsSortInstLe env r a c = true := by
  cases r <;> simp only [smsSortInstLe, if_true, Bool.false_eq_true, if_false,
    decide_eq_true_eq] at hab hbc ⊢
  · exact le_trans hab hbc
  · exact le_trans hbc hab

theorem smsSortInstLe_of_key_eq (env : BusEnv) (r : Bool) (a b : MMModemSms)
    (h : smsSortKey env a = smsSortKey env b) : smsSortInstLe env r a b = true := by
  cases r <;> simp only [smsSortInstLe, if_true, Bool.false_eq_true, if_false, h,
    decide_eq_true_eq]
  · exact le_refl _
  · exact le_refl _

/-- C2 (amended): the original claim fails on message sets mixing an
offset-aware timestamp with a naive or missing one, where the sort
comparison raises `TypeError` (see `claim_C2_counterexample`).  On a
set whose kept-message keys are all offset-naive, `received()` sorts by
the wall-clock timestamp - most-recent-first by default, ascending when
the reverse flag is `false` - with a stable tie-break, and the faithful
(raising) model agrees with the total sort pipeline; on a set whose
keys are all offset-aware it sorts by instant, again stably; and
unconditionally, a message whose timestamp is missing or unparseable
gets key `datetime.min`, the least wall-clock key. -/
theorem claim_C2_received_sorted (env : BusEnv) (modem : MMModem) :
    ((∀ m ∈ receivedCandidates env modem, (smsSortKey env m).utcoffsetUs = none) →
      (∀ reverse : Bool, MMModemMessaging.get_sms_received_py env modem reverse =
          .ok (MMModemMessaging.get_sms_received env modem reverse)) ∧
      (MMModemMessaging.get_sms_received env modem true).Pairwise
        (fun a b => dtLe (smsSortKey env b) (smsSortKey env a) = true) ∧
      (MMModemMessaging.get_sms_received env modem false).Pairwise
        (fun a b => dtLe (smsSortKey env a) (smsSortKey env b) = true) ∧
      (∀ reverse : Bool, ∀ k : PyDateTime,
        (MMModemMessaging.get_sms_received env modem reverse).filter
            (fun m => smsSortKey env m == k) =
          (receivedCandidates env modem).filter (fun m => smsSortKey env m == k))) ∧
    ((∀ m ∈ receivedCandidates env modem, smsKeyIsAware env m = true) →
      (∀ reverse : Bool, MMModemMessaging.get_sms_received_py env modem reverse =
          .ok (pySortBy (smsSortInstLe env reverse) (receivedCandidates env modem))) ∧
      (pySortBy (smsSortInstLe env true) (receivedCandidates env modem)).Pairwise
        (fun a b => dtInstantUs (smsSortKey env b) ≤ dtInstantUs (smsSortKey env a)) ∧
      (pySortBy (smsSortInstLe env false) (receivedCandidates env modem)).Pairwise
        (fun a b => dtInstantUs (smsSortKey env a) ≤ dtInstantUs (smsSortKey env b)) ∧
      (∀ reverse : Bool, ∀ k : PyDateTime,
        (pySortBy (smsSortInstLe env reverse) (receivedCandidates env modem)).filter
            (fun m => smsSortKey env m == k) =
          (receivedCandidates env modem).filter (fun m => smsSortKey env m == k))) ∧
    (∀ m, MMModemSms.get_datetime env m = none → smsSortKey env m = datetime_min) ∧
    (∀ m, dtLe datetime_min (smsSortKey env m) = true) := by
  refine ⟨fun hnaive => ?_, fun haware => ?_, ?_, ?_⟩
  · refine ⟨?_, ?_, ?_, ?_⟩
    · intro reverse
      have hany : (receivedCandidates env modem).any (smsKeyIsAware env) = false := by
        rw [List.any_eq_false]
        intro m hm
        simp [smsKeyIsAware, hnaive m hm]
      unfold MMModemMessaging.get_sms_received_py
      rw [hany, if_neg (by simp)]
      congr 1
      show pySortBy (smsSortLePy env reverse) (receivedCandidates env modem) =
        pySortBy (smsSortLe env reverse) (receivedCandidates env modem)
      refine pySortBy_congr _ _ _ (fun a ha b hb => ?_)
      cases reverse
      · show dtLePy (smsSortKey env a) (smsSortKey env b) =
          dtLe (smsSortKey env a) (smsSortKey env b)
        exact dtLePy_naive _ _ (hnaive a ha)
      · show dtLePy (smsSortKey env b) (smsSortKey env a) =
          dtLe (smsSortKey env b) (smsSortKey env a)
        exact dtLePy_naive _ _ (hnaive b hb)
    · exact pySortBy_pairwise (smsSortLe env true) (smsSortLe_total env true)
        (smsSortLe_trans env true) _
    · exact pySortBy_pairwise (smsSortLe env false) (smsSortLe_total env false)
        (smsSortLe_trans env false) _
    · intro reverse k
      refine pySortBy_filter (smsSortLe env reverse) _ (fun a b ha hb => ?_) _
      have ha' : smsSortKey env a = k := by simpa using ha
      have hb' : smsSortKey env b = k := by simpa using hb
      exact smsSortLe_of_key_eq env reverse a b (ha'.trans hb'.symm)
  · refine ⟨?_, ?_, ?_, ?_⟩
    · intro reverse
      have hany : (receivedCandidates env modem).any (fun m => !smsKeyIsAware env m)
          = false := by
        rw [List.any_eq_false]
        intro m hm
        simp [haware m hm]
      unfold MMModemMessaging.get_sms_received_py
      rw [hany, Bool.and_false, if_neg (by simp)]
      congr 1
      show pySortBy (smsSortLePy env reverse) (receivedCandidates env modem) =
        pySortBy (smsSortInstLe env reverse) (receivedCandidates env modem)
      refine pySortBy_congr _ _ _ (fun a ha b hb => ?_)
      have hsa : (smsSortKey env a).utcoffsetUs.isSome = true := haware a ha
      have hsb : (smsSortKey env b).utcoffsetUs.isSome = true := haware b hb
      obtain ⟨oa, hoa⟩ := Option.isSome_iff_exists.mp hsa
      obtain ⟨ob, hob⟩ := Option.isSome_iff_exists.mp hsb
      cases reverse
      · show dtLePy (smsSortKey env a) (smsSortKey env b) =
          decide (dtInstantUs (smsSortKey env a) ≤ dtInstantUs (smsSortKey env b))
        exact dtLePy_aware _ _ oa ob hoa hob
      · show dtLePy (smsSortKey env b) (smsSortKey env a) =
          decide (dtInstantUs (smsSortKey env b) ≤ dtInstantUs (smsSortKey env a))
        exact dtLePy_aware _ _ ob oa hob hoa
    · exact (pySortBy_pairwise (smsSortInstLe env true) (smsSortInstLe_total env true)
        (smsSortInstLe_trans env true) _).imp (fun h => of_decide_eq_true h)
    · exact (pySortBy_pairwise (smsSortInstLe env false) (smsSortInstLe_total env false)
        (smsSortInstLe_trans env false) _).imp (fun h => of_decide_eq_true h)
    · intro reverse k
      refine pySortBy_filter (smsSortInstLe env reverse) _ (fun a b ha hb => ?_) _
      have ha' : smsSortKey env a = k := by simpa using ha
      have hb' : smsSortKey env b = k := by simpa using hb
      exact smsSortInstLe_of_key_eq env reverse a b (ha'.trans hb'.symm)
  · exact fun m hm => smsSortKey_of_no_datetime env m hm
  · exact fun m => smsSortKey_min_le env m

/-- Witness for C2: on the all-naive demo environment the faithful
model agrees with the sort pipeline, and a message with no listed
timestamp gets the minimal sort key. -/
theorem claim_C2_witness :
    MMModemMessaging.get_sms_received_py demoEnv demoModem true =
      .ok (MMModemMessaging.get_sms_received demoEnv demoModem true) ∧
    smsSortKey demoEnv ⟨some "/nowhere"⟩ = datetime_min :=
  ⟨((claim_C2_received_sorted demoEnv demoModem).1 (by decide)).1 true,
   (claim_C2_received_sorted demoEnv demoModem).2.2.1 ⟨some "/nowhere"⟩ rfl⟩

/-- Counterexample to C2 as stated: on the remote set whose first
received message carries the offset-aware timestamp
`"2024-01-01T10:00:00+02:00"` and whose second has none, the sort key
of the second is the offset-naive `datetime.min`, the comparison the
sort must evaluate raises `TypeError`, and `received()` therefore
raises instead of returning the claimed ordered sequence. -/
theorem claim_C2_counterexample :
    MMModemMessaging.get_sms_received_py mixedTzEnv demoModem true =
      .error "TypeError: cannot compare offset-naive and offset-aware datetimes" ∧
    smsKeyIsAware mixedTzEnv ⟨some demoSmsPath1⟩ = true ∧
    smsSortKey mixedTzEnv ⟨some demoSmsPath2⟩ = datetime_min ∧
    dtComparePy (smsSortKey mixedTzEnv ⟨some demoSmsPath1⟩)
        (smsSortKey mixedTzEnv ⟨some demoSmsPath2⟩) =
      .error "TypeError: cannot compare offset-naive and offset-aware datetimes" :=
  ⟨rfl, rfl, rfl, rfl⟩

theorem process_messages_none (env : BusEnv) (cfg : SmsConfig)
    (h : ModemManager.get_first env = none) : process_messages env cfg = [] := by
  unfold process_messages
  rw [h]

theorem process_messages_some (env : BusEnv) (cfg : SmsConfig) (modem : MMModem)
    (h : ModemManager.get_first env = some modem) :
    process_messages env cfg =
      Event.fetch :: (MMModemMessaging.get_sms_received env modem true).flatMap (fun m =>
        Event.send m.obj_path (send_email (env.smtpResult m.obj_path)).1 ::
          (if cfg.delete_after_sending then
            [Event.deleteSms m.obj_path (env.deleteOk m.obj_path)]
          else [])) := by
  unfold process_messages
  rw [h]

theorem cycle_messages_none (env : BusEnv)
    (h : ModemManager.get_first env = none) : cycle_messages env = [] := by
  unfold cycle_messages
  rw [h]

theorem cycle_messages_some (env : BusEnv) (modem : MMModem)
    (h : ModemManager.get_first env = some modem) :
    cycle_messages env = MMModemMessaging.get_sms_received env modem true := by
  unfold cycle_messages
  rw [h]

/-- C3: within one poll cycle, whatever the number of received
messages, the trace is the fetch followed by one block per message in
`received()` order, each block being that message's send attempt
immediately followed (when delete-after-send is enabled) by that same
message's delete attempt - so deletes happen only after their own
message's send and blocks never interleave; the send attempts are
exactly the ordered message list and the delete attempts exactly match
the flag; in particular a cycle over two received messages with
delete-after-send enabled is exactly the five-event trace of two
send/delete pairs in order. -/
theorem claim_C3_cycle_order (env : BusEnv) (cfg : SmsConfig) (modem : MMModem)
    (msgs : List MMModemSms)
    (hm : ModemManager.get_first env = some modem)
    (hmsgs : MMModemMessaging.get_sms_received env modem true = msgs) :
    (process_messages env cfg =
      Event.fetch :: msgs.flatMap (fun m =>
        Event.send m.obj_path (send_email (env.smtpResult m.obj_path)).1 ::
          (if cfg.delete_after_sending then
            [Event.deleteSms m.obj_path (env.deleteOk m.obj_path)]
          else []))) ∧
    ((process_messages env cfg).filterMap sendTarget = msgs.map MMModemSms.obj_path) ∧
    ((process_messages env cfg).filterMap deleteTarget =
      if cfg.delete_after_sending then msgs.map MMModemSms.obj_path else []) ∧
    (cfg.delete_after_sending = true → ∀ m1 m2, msgs = [m1, m2] →
      process_messages env cfg =
        [Event.fetch,
         Event.send m1.obj_path (send_email (env.smtpResult m1.obj_path)).1,
         Event.deleteSms m1.obj_path (env.deleteOk m1.obj_path),
         Event.send m2.obj_path (send_email (env.smtpResult m2.obj_path)).1,
         Event.deleteSms m2.obj_path (env.deleteOk m2.obj_path)]) := by
  have hbase := process_messages_some env cfg modem hm
  rw [hmsgs] at hbase
  obtain ⟨d⟩ := cfg
  cases d
  · refine ⟨hbase, ?_, ?_, ?_⟩
    · rw [hbase, List.filterMap_cons]
      exact filterMap_sendTarget_nodelete env msgs
    · rw [hbase, List.filterMap_cons]
      exact filterMap_deleteTarget_nodelete env msgs
    · intro hd
      exact absurd hd (by simp)
  · refine ⟨hbase, ?_, ?_, ?_⟩
    · rw [hbase, List.filterMap_cons]
      exact filterMap_sendTarget_delete env msgs
    · rw [hbase, List.filterMap_cons]
      exact filterMap_deleteTarget_delete env msgs
    · rintro - m1 m2 rfl
      rw [hbase]
      rfl

/-- Witness for C3 on the demo environment: two received messages give
exactly the five-event trace, most recent message first. -/
theorem claim_C3_witness :
    process_messages demoEnv ⟨true⟩ =
      [Event.fetch,
       Event.send (some demoSmsPath2) true,
       Event.deleteSms (some demoSmsPath2) true,
       Event.send (some demoSmsPath1) true,
       Event.deleteSms (some demoSmsPath1) true] :=
  (claim_C3_cycle_order demoEnv ⟨true⟩ demoModem [demoSms2, demoSms1] rfl rfl).2.2.2
    rfl demoSms2 demoSms1 rfl

/-- C4: a send failure does not abort the cycle: for every environment
(including any pattern of SMTP failures) the sequence of send attempts
is exactly the cycle's message list in order, and `send_email` turns any
SMTP exception into a logged failure value rather than raising. -/
theorem claim_C4_send_failure_no_abort (env : BusEnv) (cfg : SmsConfig) :
    (process_messages env cfg).filterMap sendTarget =
      (cycle_messages env).map MMModemSms.obj_path ∧
    ∀ e, send_email (.error e) = (false, "Failed to send email: " ++ e) := by
  constructor
  · cases hm : ModemManager.get_first env with
    | none => rw [process_messages_none env cfg hm, cycle_messages_none env hm]; rfl
    | some modem =>
      rw [process_messages_some env cfg modem hm, cycle_messages_some env modem hm,
        List.filterMap_cons]
      obtain ⟨d⟩ := cfg
      cases d
      · exact filterMap_sendTarget_nodelete env _
      · exact filterMap_sendTarget_delete env _
  · intro e
    rfl

/-- C8: when no modem resolves, the poll cycle performs nothing at all -
no fetch, no send, no delete - and returns normally. -/
theorem claim_C8_no_modem_no_actions (env : BusEnv) (cfg : SmsConfig)
    (h : ModemManager.get_first env = none) :
    process_messages env cfg = [] :=
  process_messages_none env cfg h

/-- Witness for C8: the environment with no managed objects yields the
empty trace. -/
theorem claim_C8_witness : process_messages emptyEnv ⟨false⟩ = [] :=
  claim_C8_no_modem_no_actions emptyEnv ⟨false⟩ rfl

/-- C10: with delete-after-send enabled, the delete attempts are exactly
the cycle's message list regardless of SMTP outcomes - `send_email`
catches every exception and the orchestrator never inspects a success
flag - so a message whose email failed is still deleted; in particular
each message's delete event occurs in the trace. -/
theorem claim_C10_delete_regardless (env : BusEnv) :
    (process_messages env ⟨true⟩).filterMap deleteTarget =
      (cycle_messages env).map MMModemSms.obj_path ∧
    ∀ m ∈ cycle_messages env,
      Event.deleteSms m.obj_path (env.deleteOk m.obj_path) ∈ process_messages env ⟨true⟩ := by
  constructor
  · cases hm : ModemManager.get_first env with
    | none => rw [process_messages_none env ⟨true⟩ hm, cycle_messages_none env hm]; rfl
    | some modem =>
      rw [process_messages_some env ⟨true⟩ modem hm, cycle_messages_some env modem hm,
        List.filterMap_cons]
      exact filterMap_deleteTarget_delete env _
  · intro m hmem
    cases hm : ModemManager.get_first env with
    | none =>
      rw [cycle_messages_none env hm] at hmem
      exact absurd hmem (List.not_mem_nil m)
    | some modem =>
      rw [cycle_messages_some env modem hm] at hmem
      rw [process_messages_some env ⟨true⟩ modem hm]
      refine List.mem_cons_of_mem _ (List.mem_flatMap.mpr ⟨m, hmem, ?_⟩)
      exact List.mem_cons_of_mem _ (List.mem_singleton.mpr rfl)

/-- Witness for C10: with an always-failing SMTP session, the delete of
the first demo message is still attempted. -/
theorem claim_C10_witness :
    Event.deleteSms (some demoSmsPath1) true ∈ process_messages demoEnvSmtpFail ⟨true⟩ :=
  (claim_C10_delete_regardless demoEnvSmtpFail).2 demoSms1 (by decide)

/-- C7: `get_modem` returns a constructed modem only when the encoded
path is in the enumerated list, and `get_sms` with an id returns a
constructed message only when the encoded path is in the live `Messages`
listing; whenever the encoded path is absent (or encoding fails), the
result is `None` and no entity is constructed. -/
theorem claim_C7_resolve_validates (env : BusEnv) (arg : PyArg) :
    (∀ m, ModemManager.get_modem env arg = some m →
      ∃ p, ModemManagerObject.object_path "Modem" arg = some p ∧
        p ∈ ModemManager.get_modems_list env ∧ m.obj_path = some p) ∧
    ((∀ p, ModemManagerObject.object_path "Modem" arg = some p →
        p ∉ ModemManager.get_modems_list env) →
      ModemManager.get_modem env arg = none) ∧
    (∀ modem m, MMModemMessaging.get_sms_byId env modem arg = some m →
      ∃ p, ModemManagerObject.object_path "SMS" arg = some p ∧
        p ∈ MMModemMessaging.Messages env modem ∧ m.obj_path = some p) ∧
    (∀ modem, (∀ p, ModemManagerObject.object_path "SMS" arg = some p →
        p ∉ MMModemMessaging.Messages env modem) →
      MMModemMessaging.get_sms_byId env modem arg = none) := by
  refine ⟨?_, ?_, ?_, ?_⟩
  · intro m hsome
    unfold ModemManager.get_modem at hsome
    cases he : ModemManagerObject.object_path "Modem" arg with
    | none => rw [he] at hsome; exact Option.noConfusion hsome
    | some p =>
      rw [he] at hsome
      have hsome' : (if p ∈ ModemManager.get_modems_list env then
          some (mkModem (.pstr p)) else none) = some m := hsome
      by_cases hmem : p ∈ ModemManager.get_modems_list env
      · rw [if_pos hmem] at hsome'
        refine ⟨p, rfl, hmem, ?_⟩
        rw [← Option.some_injective _ hsome']
        exact object_path_roundtrip "Modem" arg p he
      · rw [if_neg hmem] at hsome'
        exact Option.noConfusion hsome'
  · intro habs
    unfold ModemManager.get_modem
    cases he : ModemManagerObject.object_path "Modem" arg with
    | none => rfl
    | some p =>
      show (if p ∈ ModemManager.get_modems_list env then
          some (mkModem (.pstr p)) else none) = none
      rw [if_neg (habs p he)]
  · intro modem m hsome
    unfold MMModemMessaging.get_sms_byId at hsome
    cases he : ModemManagerObject.object_path "SMS" arg with
    | none => rw [he] at hsome; exact Option.noConfusion hsome
    | some p =>
      rw [he] at hsome
      have hsome' : (if p ∈ MMModemMessaging.Messages env modem then
          some (mkSms (.pstr p)) else none) = some m := hsome
      by_cases hmem : p ∈ MMModemMessaging.Messages env modem
      · rw [if_pos hmem] at hsome'
        refine ⟨p, rfl, hmem, ?_⟩
        rw [← Option.some_injective _ hsome']
        exact object_path_roundtrip "SMS" arg p he
      · rw [if_neg hmem] at hsome'
        exact Option.noConfusion hsome'
  · intro modem habs
    unfold MMModemMessaging.get_sms_byId
    cases he : ModemManagerObject.object_path "SMS" arg with
    | none => rfl
    | some p =>
      show (if p ∈ MMModemMessaging.Messages env modem then
          some (mkSms (.pstr p)) else none) = none
      rw [if_neg (habs p he)]

/-- Witness for C7: id 7 encodes to a path absent from both listings, so
both lookups yield `None`. -/
theorem claim_C7_witness :
    ModemManager.get_modem demoEnv (.pint 7) = none ∧
    MMModemMessaging.get_sms_byId demoEnv demoModem (.pint 7) = none :=
  ⟨(claim_C7_resolve_validates demoEnv (.pint 7)).2.1
      (by intro p hp; injection hp with h; subst h; decide),
   (claim_C7_resolve_validates demoEnv (.pint 7)).2.2.2 demoModem
      (by intro p hp; injection hp with h; subst h; decide)⟩

/-- C9: the wire-value normalization `type_cast` is a total function:
string-like and path-like values become plain strings, 32-bit signed and
unsigned integers become the single `int` type, arrays become lists of
recursively normalized elements, and every other value - `None`, plain
strings, ints, lists, and unknown types - passes through unchanged. -/
theorem claim_C9_type_cast_total :
    (∀ s, DBus.type_cast (.dStr s) = .pStr s) ∧
    (∀ s, DBus.type_cast (.dPath s) = .pStr s) ∧
    (∀ n : Int, DBus.type_cast (.dI32 n) = .pInt n) ∧
    (∀ n : Nat, DBus.type_cast (.dU32 n) = .pInt (n : Int)) ∧
    (∀ l, DBus.type_cast (.dArr l) = .pList (l.map DBus.type_cast)) ∧
    DBus.type_cast .pyNone = .pyNone ∧
    (∀ s, DBus.type_cast (.pStr s) = .pStr s) ∧
    (∀ n, DBus.type_cast (.pInt n) = .pInt n) ∧
    (∀ l, DBus.type_cast (.pList l) = .pList l) ∧
    (∀ t, DBus.type_cast (.pOther t) = .pOther t) :=
  ⟨fun _ => rfl, fun _ => rfl, fun _ => rfl, fun _ => rfl,
   fun l => by rw [DBus.type_cast, type_cast_list_eq_map],
   rfl, fun _ => rfl, fun _ => rfl, fun _ => rfl, fun _ => rfl⟩

theorem get_modem_by_some (env : BusEnv) (name v : String) :
    ModemManager.get_modem_by env name (some v) =
      (if name ∈ mmPropertyAllowList then
        match pyFilterExcept (fun m => pyInValue v (MMModem.get_property env m name))
            ((ModemManager.get_modems_list env).map (fun x => mkModem (.pstr x))) with
        | .error e => .error e
        | .ok ms =>
          match ms with
          | [m] => .ok (.modem m)
          | _ => .ok (.modems ms)
      else .ok .pynone) := rfl

/-- C6: with a non-absent search value, `get_modem_by` with an
allow-listed name - assuming every enumerated modem's property supports
the membership test, i.e. no lookup raises - returns the single modem
directly when the contains-filter keeps exactly one, and the full
(possibly empty) match list otherwise; a name outside the allow-list
yields `None`. -/
theorem claim_C6_get_modem_by (env : BusEnv) (name v : String) :
    (name ∈ mmPropertyAllowList →
      (∀ m ∈ (ModemManager.get_modems_list env).map (fun x => mkModem (.pstr x)),
        ∃ b, pyInValue v (MMModem.get_property env m name) = .ok b) →
      ModemManager.get_modem_by env name (some v) =
        .ok (match ((ModemManager.get_modems_list env).map (fun x => mkModem (.pstr x))).filter
              (fun m => pyInOkB v (MMModem.get_property env m name)) with
            | [m] => .modem m
            | ms => .modems ms)) ∧
    (name ∉ mmPropertyAllowList →
      ModemManager.get_modem_by env name (some v) = .ok .pynone) := by
  constructor
  · intro hname hprops
    have hfe : pyFilterExcept (fun m => pyInValue v (MMModem.get_property env m name))
        ((ModemManager.get_modems_list env).map (fun x => mkModem (.pstr x))) =
        .ok (((ModemManager.get_modems_list env).map (fun x => mkModem (.pstr x))).filter
          (fun m => pyInOkB v (MMModem.get_property env m name))) := by
      apply pyFilterExcept_ok
      intro a ha
      obtain ⟨b, hb⟩ := hprops a ha
      rw [hb]
      unfold pyInOkB
      rw [hb]
    rw [get_modem_by_some, if_pos hname, hfe]
    cases hL : ((ModemManager.get_modems_list env).map (fun x => mkModem (.pstr x))).filter
        (fun m => pyInOkB v (MMModem.get_property env m name)) with
    | nil => rfl
    | cons a t =>
      cases t with
      | nil => rfl
      | cons b u => rfl
  · intro hname
    rw [get_modem_by_some, if_neg hname]

/-- Witness for C6: searching `OwnNumbers` for the demo modem's number
returns that single modem directly. -/
theorem claim_C6_witness :
    ModemManager.get_modem_by demoEnv "OwnNumbers" (some "+4915112345678") =
      .ok (.modem demoModem) :=
  (claim_C6_get_modem_by demoEnv "OwnNumbers" "+4915112345678").1 (by decide)
    (by
      intro m hm
      rcases List.mem_singleton.mp hm with rfl
      exact ⟨true, rfl⟩)
